import Mathlib

/-!
Verification of the QuickResolve control plane (task store, broker,
health pruner, pipeline orchestrator) against its natural-language
specification.

The definitions below are a shallow embedding of the Python sources:

* `src/task-service/main.py`   — task store HTTP endpoints, broker
  assignment loop, consumer health pruner;
* `src/task-service/database.py` — column defaults for task rows;
* `src/task-service/registry.py` — the dispatch registry;
* `src/index-document-service/main.py` — the pipeline orchestrator
  (step canonicalization, fan-out, retry loop).

The task store is modelled as in-memory lists of rows; timestamps are
naturals (seconds since epoch); JSON columns (`status`, `input`,
`state`, `output`) are modelled as flat string-keyed objects, which is
sufficient because no verified property inspects nested JSON values.
-/

namespace QuickResolve

/-- Atomic JSON values appearing in the JSON columns of a task row. -/
inductive JLit where
  | null
  | bool (b : Bool)
  | int (n : Int)
  | str (s : String)
deriving DecidableEq, Repr

/-- A (flat) JSON object: the model of the `status`, `input`, `state`
and `output` columns and of request-body dictionaries. -/
abbrev JObj := List (String × JLit)

/-- A row of the `tasks` table (`database.py`, class `Task`). -/
structure Task where
  id : Nat
  name : String
  workspace_id : Int
  creation_timestamp : Nat
  modification_timestamp : Nat
  scheduled_start_timestamp : Nat
  start_timestamp : Option Nat
  end_timestamp : Option Nat
  status_code : Nat
  status : JObj
  progress_percentage : Int
  input : JObj
  state : JObj
  output : JObj
deriving DecidableEq, Repr

/-- A row of the `consumers` table (`database.py`, class `Consumer`).
The SmallInteger `is_ready` column (0/1) is modelled as a `Bool`. -/
structure Consumer where
  endpoint_url : String
  health_url : String
  topic : String
  is_ready : Bool
deriving DecidableEq, Repr

/-- The durable state of the task service: the two tables. -/
structure Store where
  tasks : List Task
  consumers : List Consumer
deriving DecidableEq, Repr

/-- Request body of `POST /task` (`CreateTaskBody` in `main.py`). -/
structure CreateTaskBody where
  name : String
  scheduled_start_timestamp : Option Nat
  input : JObj
  workspace_id : Option Int
deriving DecidableEq, Repr

/-- Request body of `PUT /task/{id}` after pydantic validation
(`UpdateTaskBody` in `main.py`): exactly the six declared fields,
each optional. -/
structure UpdateTaskBody where
  status_code : Option Nat
  status : Option JObj
  progress_percentage : Option Int
  output : Option JObj
  state : Option JObj
  scheduled_start_timestamp : Option Nat
deriving DecidableEq, Repr

/-- A raw `PUT /task/{id}` JSON body before pydantic validation: the
recognized fields plus the names of any other keys present in the
JSON.  Pydantic's default config (`extra="ignore"`) silently drops the
unknown keys, so parsing keeps only `known`. -/
structure RawUpdateRequest where
  known : UpdateTaskBody
  extraKeys : List String
deriving DecidableEq, Repr

/-- Pydantic parsing of a raw update request: unknown keys are dropped
(the default `BaseModel` behaviour used by `main.py`). -/
def parseUpdateRequest (r : RawUpdateRequest) : UpdateTaskBody :=
  r.known

/-- The keys of `body.model_dump(exclude_none=True)`: names of the
fields actually provided (non-null) in the parsed body. -/
def UpdateTaskBody.providedFields (b : UpdateTaskBody) : List String :=
  (if b.status_code.isSome then ["status_code"] else []) ++
  (if b.status.isSome then ["status"] else []) ++
  (if b.progress_percentage.isSome then ["progress_percentage"] else []) ++
  (if b.output.isSome then ["output"] else []) ++
  (if b.state.isSome then ["state"] else []) ++
  (if b.scheduled_start_timestamp.isSome then ["scheduled_start_timestamp"] else [])

/-- `allowed_fields` in `update_task` (`main.py` lines 209-216). -/
def allowedFields : List String :=
  ["status_code", "status", "progress_percentage", "output", "state",
   "scheduled_start_timestamp"]

/-- The field assignments of `update_task` / `_update_task_fields`:
each provided field overwrites the column, absent fields are left
alone. -/
def applyPayload (t : Task) (b : UpdateTaskBody) : Task :=
  { t with
    status := b.status.getD t.status
    progress_percentage := b.progress_percentage.getD t.progress_percentage
    output := b.output.getD t.output
    state := b.state.getD t.state
    scheduled_start_timestamp :=
      b.scheduled_start_timestamp.getD t.scheduled_start_timestamp
    status_code := b.status_code.getD t.status_code }

/-- The shared mutation body of `update_task` (`main.py` 240-268) and
`_update_task_fields` (`main.py` 523-556): apply the payload, then the
"Rules" block — stamp `modification_timestamp`; set `start_timestamp`
the first time the status moves 0 to 1; set `end_timestamp` whenever
the resulting status is 2 or 3; force `progress_percentage` to 100 on
status 2.  No status-transition validation is performed. -/
def applyTaskRules (t : Task) (b : UpdateTaskBody) (now : Nat) : Task :=
  let prev := t.status_code
  let t1 := applyPayload t b
  let t2 := { t1 with modification_timestamp := now }
  let t3 :=
    if prev = 0 ∧ t2.status_code = 1 ∧ t2.start_timestamp = none then
      { t2 with start_timestamp := some now }
    else t2
  let t4 :=
    if t3.status_code = 2 ∨ t3.status_code = 3 then
      { t3 with end_timestamp := some now }
    else t3
  if t4.status_code = 2 then { t4 with progress_percentage := 100 } else t4

/-- `_update_task_fields` (`main.py` 523-556): internal update helper,
no validation at all; missing task ids are ignored. -/
def updateTaskFields (s : Store) (tid : Nat) (b : UpdateTaskBody)
    (now : Nat) : Store :=
  match s.tasks.find? (fun t => t.id == tid) with
  | none => s
  | some _ =>
      { s with tasks :=
          s.tasks.map (fun t => if t.id == tid then applyTaskRules t b now else t) }

/-- `_mark_task_failed` (`main.py` 559-562): set status_code 3 with the
given status dict (falling back to an error dict when absent or
empty, Python's `status or {"error": "failed"}`). -/
def markTaskFailed (s : Store) (tid : Nat) (status : Option JObj)
    (now : Nat) : Store :=
  let st :=
    match status with
    | some l => if l.isEmpty then [("error", JLit.str "failed")] else l
    | none => [("error", JLit.str "failed")]
  updateTaskFields s tid ⟨some 3, some st, none, none, none, none⟩ now

/-- Possible HTTP outcomes of the task endpoints. -/
inductive HttpOutcome where
  | ok
  | badRequest
  | notFound
deriving DecidableEq, Repr

/-- `PUT /task/{id}` (`update_task`, `main.py` 207-280): reject when no
recognized field is provided or a provided field is outside the
allowed set; otherwise look the task up and apply the shared mutation
rules.  There is no check on the status transition itself. -/
def updateTask (s : Store) (tid : Nat) (b : UpdateTaskBody)
    (now : Nat) : HttpOutcome × Store :=
  let provided := b.providedFields
  if provided.isEmpty then (.badRequest, s)
  else if !(provided.all (fun f => allowedFields.contains f)) then
    (.badRequest, s)
  else
    match s.tasks.find? (fun t => t.id == tid) with
    | none => (.notFound, s)
    | some _ =>
        (.ok, { s with tasks :=
            s.tasks.map (fun t => if t.id == tid then applyTaskRules t b now else t) })

/-- The task row inserted by `POST /task` (`create_task`, `main.py`
130-159), with the column defaults of `database.py` filled in: a
missing `scheduled_start_timestamp` defaults to the insertion time
(`_now_seconds`), `state` defaults to the empty dict. -/
def newTask (b : CreateTaskBody) (now : Nat) (newId : Nat) : Task :=
  { id := newId
    name := b.name
    workspace_id := b.workspace_id.getD 0
    creation_timestamp := now
    modification_timestamp := now
    scheduled_start_timestamp := b.scheduled_start_timestamp.getD now
    start_timestamp := none
    end_timestamp := none
    status_code := 0
    status := []
    progress_percentage := 0
    input := b.input
    state := []
    output := [] }

/-- `POST /task`: append the new row to the store. -/
def createTask (s : Store) (b : CreateTaskBody) (now : Nat)
    (newId : Nat) : Store :=
  { s with tasks := s.tasks ++ [newTask b now newId] }

/-- The broker's per-row lease mutation (`_assign_once_fifo`,
`main.py` 394-398): status 1, stamp modification, set
`start_timestamp` only if still null. -/
def leaseTaskRow (t : Task) (now : Nat) : Task :=
  { t with
    status_code := 1
    modification_timestamp := now
    start_timestamp := some (t.start_timestamp.getD now) }

/-- The operations that ever mutate a given task row: a `PUT` (or the
internal `_update_task_fields`) and the broker's lease.  The broker
leases only queued rows (the re-query filters `status_code == 0`). -/
inductive TaskOp where
  | update (b : UpdateTaskBody) (now : Nat)
  | leaseHit (now : Nat)
deriving DecidableEq, Repr

/-- Effect of one operation on one task row. -/
def Task.step (t : Task) : TaskOp → Task
  | .update b now => applyTaskRules t b now
  | .leaseHit now => if t.status_code = 0 then leaseTaskRow t now else t

/-- A task's whole history: created, then any sequence of mutations. -/
def runOps (t : Task) (ops : List TaskOp) : Task :=
  ops.foldl Task.step t

/-! ### String helpers

Python's `str.lower()` / `str.strip()` and SQL's lexicographic
`ORDER BY` on a text column, implemented over the character list of
the string (computable by kernel reduction). -/

/-- `s.lower()`: lowercase every character. -/
def strLower (s : String) : String :=
  ⟨s.data.map Char.toLower⟩

/-- `s.strip()`: drop leading and trailing whitespace. -/
def strTrim (s : String) : String :=
  ⟨((s.data.dropWhile Char.isWhitespace).reverse.dropWhile
      Char.isWhitespace).reverse⟩

/-- Lexicographic comparison of character lists (the order used by
`ORDER BY endpoint_url ASC`). -/
def charListLe : List Char → List Char → Bool
  | [], _ => true
  | _ :: _, [] => false
  | a :: as, b :: bs =>
      if a < b then true else if a == b then charListLe as bs else false

/-! ### Dispatch registry (`src/task-service/registry.py`) -/

/-- A registry entry: either an HTTP worker endpoint or the internal
handler of the task service itself. -/
inductive RegEntry where
  | http (url : String)
  | internal (handler : String)
deriving DecidableEq, Repr

/-- `REGISTRY` (`registry.py` 23-61), with the default service URLs.
Keys are lowercase task names. -/
def REGISTRY : List (String × RegEntry) :=
  [("hello-world", .internal "hello_world"),
   ("index-document", .http "http://index-document-service:8011/"),
   ("parse-document", .http "http://document-parsing-service:8005/parse"),
   ("redact", .http "http://redaction-service:8007/redact"),
   ("chunk", .http "http://chunking-service:8006/chunk"),
   ("embed", .http "http://embedding-service:8001/embed-chunk"),
   ("index", .http "http://indexing-service:8012/index-chunk")]

/-- `REGISTRY.get(name_lc)`. -/
def registryFind (nameLc : String) : Option RegEntry :=
  (REGISTRY.find? (fun p => p.1 == nameLc)).map (·.2)

/-- What the broker does with a freshly leased task: dispatch it over
HTTP, run the internal hello-world handler, or mark it failed. -/
inductive DispatchAction where
  | httpDispatch (url : String) (taskId : Nat)
  | helloWorld (taskId : Nat)
  | markedFailed (taskId : Nat)
deriving DecidableEq, Repr

/-! ### Broker assignment (`_assign_once_fifo`, `main.py` 345-422) -/

/-- The lease transaction (`main.py` 372-401): re-fetch the candidate
consumer row by endpoint (with a row lock) and the candidate task row
by id filtered to `status_code == 0`; if either check fails, roll back
(no change); otherwise lease the task row and consume the readiness
token in one commit.  Returns the updated store and the leased row. -/
def leaseTxn (s : Store) (e : String) (tid : Nat) (now : Nat) :
    Option (Store × Task) :=
  match s.consumers.find? (fun c => c.endpoint_url == e) with
  | none => none
  | some c =>
      if !c.is_ready then none
      else
        match s.tasks.find? (fun t => t.id == tid && t.status_code == 0) with
        | none => none
        | some t =>
            some ({ tasks :=
                      s.tasks.map (fun u => if u.id == tid then leaseTaskRow u now else u),
                    consumers :=
                      s.consumers.map (fun d => if d.endpoint_url == e then { d with is_ready := false } else d) },
                  leaseTaskRow t now)

/-- After a successful lease (`main.py` 402-417): look the lowercased
task name up in the registry; HTTP entries and the internal
hello-world entry are dispatched asynchronously; anything else makes
the broker mark the task failed with `{"error": "unknown task"}`
(the braces here denote a Python dict literal). -/
def dispatchLeased (s : Store) (t : Task) (now : Nat) :
    Store × DispatchAction :=
  match registryFind (strLower t.name) with
  | some (.http url) => (s, .httpDispatch url t.id)
  | some (.internal h) =>
      if h == "hello_world" then (s, .helloWorld t.id)
      else (markTaskFailed s t.id (some [("error", JLit.str "unknown task")]) now,
            .markedFailed t.id)
  | none =>
      (markTaskFailed s t.id (some [("error", JLit.str "unknown task")]) now,
       .markedFailed t.id)

/-- One iteration of the inner pairing loop (`main.py` 372-420):
attempt the lease transaction and, when it commits, dispatch.
A failed transaction leaves the store untouched (`db.rollback()`). -/
def leaseStep (s : Store) (e : String) (tid : Nat) (now : Nat) :
    Store × Option DispatchAction :=
  match leaseTxn s e tid now with
  | none => (s, none)
  | some (s1, t) =>
      let (s2, act) := dispatchLeased s1 t now
      (s2, some act)

/-- The batch of ready consumers for a topic (`main.py` 353-360):
`WHERE topic = ? AND is_ready = 1 ORDER BY endpoint_url ASC LIMIT 64`.
The order is total because `endpoint_url` is the primary key. -/
def readyConsumers (s : Store) (topic : String) : List Consumer :=
  ((s.consumers.filter (fun c => c.topic == topic && c.is_ready)).insertionSort
      (fun a b => charListLe a.endpoint_url.data b.endpoint_url.data = true)).take 64

/-- The eligible queued tasks of a topic (the WHERE clause of the task
batch query, `main.py` 364-370). -/
def eligibleTasks (s : Store) (topic : String) (now : Nat) : List Task :=
  s.tasks.filter
    (fun t => t.name == topic && t.status_code == 0 &&
      decide (t.scheduled_start_timestamp ≤ now))

/-- Rows listed in ascending `scheduled_start_timestamp` order. -/
def SortedBySched (l : List Task) : Prop :=
  l.Pairwise (fun a b => a.scheduled_start_timestamp ≤ b.scheduled_start_timestamp)

instance : DecidablePred SortedBySched := fun l =>
  List.instDecidablePairwise l

/-- Admissible results of the task batch query (`main.py` 363-371):
`ORDER BY scheduled_start_timestamp ASC LIMIT lim` sorts only on
`scheduled_start_timestamp`, so the database may return the eligible
rows in any order consistent with that single key; the query yields
the first `lim` rows of one such order. -/
def TaskQueryResult (s : Store) (topic : String) (now : Nat) (lim : Nat)
    (res : List Task) : Prop :=
  ∃ full : List Task,
    full.Perm (eligibleTasks s topic now) ∧ SortedBySched full ∧
      res = full.take lim

/-- The (endpoint, task id) pairs the broker feeds to the lease
transaction for one topic: `zip(consumers, tasks)` (`main.py` 372),
where the task batch is limited to `len(consumers)` rows. -/
def assignTopicPairs (s : Store) (topic : String) (res : List Task) :
    List (String × Nat) :=
  List.zip ((readyConsumers s topic).map (·.endpoint_url)) (res.map (·.id))

/-- Run the pairing loop over a list of (endpoint, task id) pairs,
recording for each pair whether the lease committed and which dispatch
action it produced. -/
def assignPairs (s : Store) (pairs : List (String × Nat)) (now : Nat) :
    Store × List (String × Nat × Option DispatchAction) :=
  match pairs with
  | [] => (s, [])
  | (e, tid) :: rest =>
      let (s1, act) := leaseStep s e tid now
      let (s2, trace) := assignPairs s1 rest now
      (s2, (e, tid, act) :: trace)

/-- The whole per-topic body of `_assign_once_fifo`, given the task
batch `res` the database returned for this topic. -/
def assignTopic (s : Store) (topic : String) (now : Nat)
    (res : List Task) : Store × List (String × Nat × Option DispatchAction) :=
  assignPairs s (assignTopicPairs s topic res) now

/-! ### Consumer health pruner (`_prune_unhealthy_consumers`,
`main.py` 434-451) -/

/-- Result of `httpx.get(c.health_url, timeout=2.0)`: a status code,
or a raised exception. -/
inductive HealthResult where
  | ok (code : Nat)
  | err
deriving DecidableEq, Repr

/-- Whether a pass keeps the registration: the code retains a consumer
only on status 200 or 204 and deletes it on any other status or on an
exception (`main.py` 440-448). -/
def healthRetained : HealthResult → Bool
  | .ok code => code == 200 || code == 204
  | .err => false

/-- One pruner pass: check the first 200 consumers (`limit(200)`) and
delete, by endpoint, every checked registration whose health probe is
not retained. -/
def prunePass (s : Store) (health : String → HealthResult) : Store :=
  let checked := s.consumers.take 200
  let deadEps :=
    (checked.filter (fun c => !(healthRetained (health c.health_url)))).map
      (·.endpoint_url)
  { s with consumers :=
      s.consumers.filter (fun c => !(deadEps.contains c.endpoint_url)) }

/-! ### Pipeline orchestrator (`src/index-document-service/main.py`) -/

/-- Python's `name.strip().lower()` normalization of a step name. -/
def normalizeStepName (s : String) : String :=
  strLower (strTrim s)

/-- `priority.get(normalized, 5)` from `_canonicalize_steps`
(`main.py` 171-183). -/
def stepPriority (s : String) : Nat :=
  let n := normalizeStepName s
  if n == "parse-document" then 0
  else if n == "chunk" then 1
  else if n == "redact" then 2
  else if n == "embed" then 3
  else if n == "index" then 4
  else 5

/-- The fixed canonical step sequence. -/
def STEP_ORDER : List String :=
  ["parse-document", "chunk", "redact", "embed", "index"]

/-- `_canonicalize_steps`: Python's `sorted` is a stable sort on the
priority key; `List.insertionSort` with the reflexive order on the key
is stable in the same way. -/
def canonicalizeSteps (steps : List String) : List String :=
  steps.insertionSort (fun a b => stepPriority a ≤ stepPriority b)

/-- Terminal states a polled child task can reach: the orchestrator's
poll loops return only on `status_code` 2 and raise only on 3. -/
inductive Terminal where
  | succeeded
  | failed
deriving DecidableEq, Repr

/-- Python truthiness of an optional JSON value (`a or b`). -/
def truthy : Option JLit → Bool
  | none => false
  | some .null => false
  | some (.bool b) => b
  | some (.int n) => n != 0
  | some (.str s) => !s.isEmpty

/-- `chunk.get(k)`. -/
def jobjGet (o : JObj) (k : String) : Option JLit :=
  (o.find? (fun p => p.1 == k)).map (·.2)

/-- `chunk.get("chunk_id") or chunk.get("id")` (fan-out `_one`). -/
def chunkIdOf (chunk : JObj) : JLit :=
  let a := jobjGet chunk "chunk_id"
  let b := jobjGet chunk "id"
  (if truthy a then a else b).getD .null

/-- The `POST /task` body built for one fan-out child
(`_run_redact_fanout` / `_run_embed_fanout` / `_run_index_fanout`). -/
def fanoutChildBody (step : String) (chunk : JObj) (ws : Int) :
    CreateTaskBody :=
  { name := step
    scheduled_start_timestamp := none
    input := [("chunk_id", chunkIdOf chunk), ("workspace_id", JLit.int ws)]
    workspace_id := some ws }

/-- All child-task bodies of one fan-out step: exactly one per chunk.
The code schedules every child with `asyncio.create_task` before the
single `asyncio.gather` await (`main.py` 675-676, 792-793, 909-910);
nothing bounds how many run at once. -/
def fanoutChildBodies (step : String) (chunks : List JObj) (ws : Int) :
    List CreateTaskBody :=
  chunks.map (fun c => fanoutChildBody step c ws)

/-- The number of child tasks of a fan-out step that are concurrently
created-and-unfinished at the moment `asyncio.gather` starts waiting:
every chunk's child, since all are created eagerly and none is awaited
before `gather`. -/
def fanoutPeakConcurrency (chunks : List JObj) : Nat :=
  chunks.length

/-- The result of `asyncio.gather` over the children, given each
child's terminal state: the first `RuntimeError` propagates, so the
step fails iff some child failed. -/
def fanoutGather (step : String) (outcomes : List Terminal) :
    Except String Unit :=
  if outcomes.any (fun o => o == .failed) then .error (step ++ " failed")
  else .ok ()

/-- The retry loop of a single-output step (`_run_pipeline` 338-380):
`tries` starts at 0; `while tries < 3` increments `tries`, runs
attempt number `tries` (each attempt creates a fresh child task via
`_create_and_wait_task`), breaks on success; on failure it re-raises
once `tries >= 3` and otherwise sleeps `2 * tries` seconds.  `r n` is
the terminal state of the fresh child of attempt `n` (1-based).
Returns (step succeeded?, attempts made, sleeps performed). -/
def retryAux (r : Nat → Terminal) : Nat → Nat → Bool × Nat × List Nat
  | 0, tries => (false, tries, [])
  | fuel + 1, tries =>
      let t := tries + 1
      match r t with
      | .succeeded => (true, t, [])
      | .failed =>
          if 3 ≤ t then (false, t, [])
          else
            let rest := retryAux r fuel t
            (rest.1, rest.2.1, (2 * t) :: rest.2.2)

/-- The whole retry loop for one single-output step: `tries` starts at
0 and the loop runs while `tries < 3`, so the fuel is 3. -/
def retrySingleStep (r : Nat → Terminal) : Bool × Nat × List Nat :=
  retryAux r 3 0

/-! ### Derived statements and concrete fixtures -/

/-- The status/progress/end-timestamp relationships that actually hold
of every reachable task row: Succeeded forces progress 100 and an end
timestamp, and any terminal status forces an end timestamp.  (The
converses fail; see the C4 theorems.) -/
def statusEndInvariant (t : Task) : Prop :=
  (t.status_code = 2 → t.progress_percentage = 100 ∧ t.end_timestamp ≠ none) ∧
  ((t.status_code = 2 ∨ t.status_code = 3) → t.end_timestamp ≠ none)

/-- A queued task row as inserted by `POST /task` and later mutated
only in the fields shown; used to build concrete stores. -/
def mkQueuedTask (i : Nat) (nm : String) (created sched : Nat) : Task :=
  { id := i
    name := nm
    workspace_id := 0
    creation_timestamp := created
    modification_timestamp := created
    scheduled_start_timestamp := sched
    start_timestamp := none
    end_timestamp := none
    status_code := 0
    status := []
    progress_percentage := 0
    input := []
    state := []
    output := [] }

/-- A registered consumer row; used to build concrete stores. -/
def mkConsumer (e topic : String) (ready : Bool) : Consumer :=
  { endpoint_url := e
    health_url := e ++ "health"
    topic := topic
    is_ready := ready }

/-- What `leaseTxn` and the broker pairing guarantee, stated over the
store rows (claim C2).  Conjuncts: (1) the transaction commits iff the
paired consumer row is still ready and the paired task row is still
queued; (2) a rolled-back transaction leaves the store untouched;
(3) a committed transaction atomically leases exactly the paired task
row (status 1, modification stamped, start timestamp set only if it
was null) and consumes exactly the paired readiness token, all other
rows staying; (4) every pair the broker feeds to the transaction joins
a ready consumer of the topic with a queued task of the same topic
whose scheduled start has been reached. -/
def C2Statement (s : Store) (e : String) (tid now : Nat) : Prop :=
  ((leaseTxn s e tid now).isSome ↔
    (∃ c ∈ s.consumers, c.endpoint_url = e ∧ c.is_ready = true) ∧
    (∃ t ∈ s.tasks, t.id = tid ∧ t.status_code = 0)) ∧
  (leaseTxn s e tid now = none → leaseStep s e tid now = (s, none)) ∧
  (∀ s1 t0, leaseTxn s e tid now = some (s1, t0) →
     (∀ t ∈ s.tasks, t.id = tid →
        t0 ∈ s1.tasks ∧ t0.id = tid ∧ t0.status_code = 1 ∧
        t0.modification_timestamp = now ∧
        (t.start_timestamp = none → t0.start_timestamp = some now) ∧
        (∀ v, t.start_timestamp = some v → t0.start_timestamp = some v) ∧
        t0.name = t.name ∧ t0.input = t.input ∧
        t0.scheduled_start_timestamp = t.scheduled_start_timestamp ∧
        t0.creation_timestamp = t.creation_timestamp) ∧
     (∀ c ∈ s.consumers, c.endpoint_url = e →
        c.is_ready = true ∧ { c with is_ready := false } ∈ s1.consumers) ∧
     (∀ u ∈ s.tasks, u.id ≠ tid → u ∈ s1.tasks) ∧
     (∀ d ∈ s.consumers, d.endpoint_url ≠ e → d ∈ s1.consumers)) ∧
  (∀ topic res, TaskQueryResult s topic now (readyConsumers s topic).length res →
     ∀ p ∈ assignTopicPairs s topic res,
       (∃ c ∈ s.consumers, c.endpoint_url = p.1 ∧ c.topic = topic ∧
          c.is_ready = true) ∧
       (∃ t ∈ s.tasks, t.id = p.2 ∧ t.name = topic ∧ t.status_code = 0 ∧
          t.scheduled_start_timestamp ≤ now))

/-- The FIFO behaviour a broker pass actually guarantees within a
topic, for any admissible database answer `res` (claim C1): the batch
contains only eligible rows of the topic, in ascending
`scheduled_start_timestamp` order; no returned task is overtaken by an
eligible task scheduled strictly earlier; the broker leases exactly
the batch, pair by pair, every lease committing; and every task row it
did not pair is preserved unchanged. -/
def C1Post (s : Store) (topic : String) (now : Nat) (res : List Task) : Prop :=
  (∀ t ∈ res, t.name = topic ∧ t.status_code = 0 ∧
     t.scheduled_start_timestamp ≤ now) ∧
  SortedBySched res ∧
  (∀ t ∈ res, ∀ u, u ∈ eligibleTasks s topic now → u ∉ res →
     t.scheduled_start_timestamp ≤ u.scheduled_start_timestamp) ∧
  ((assignTopic s topic now res).2.map (fun x => (x.1, x.2.1)) =
     assignTopicPairs s topic res ∧
   ∀ x ∈ (assignTopic s topic now res).2, x.2.2.isSome = true) ∧
  (∀ u ∈ s.tasks, u.id ∉ (assignTopicPairs s topic res).map Prod.snd →
     u ∈ (assignTopic s topic now res).1.tasks)

/-- A task row that has already succeeded (status 2). -/
def succeededTaskFixture : Task :=
  { mkQueuedTask 0 "chunk" 0 0 with
    status_code := 2
    progress_percentage := 100
    start_timestamp := some 1
    end_timestamp := some 1 }

/-- Store holding only the succeeded task; claim C3's input. -/
def storeC3 : Store := ⟨[succeededTaskFixture], []⟩

/-- A `PUT /task/{id}` body requesting `status_code = 1`. -/
def bodyTo1 : UpdateTaskBody := ⟨some 1, none, none, none, none, none⟩

/-- The history refuting the claimed C4 equivalence: lease a queued
task at time 1, then the worker FAILs it at time 2 reporting progress
100 — both transitions (0 to 1, 1 to 3) are legal. -/
def opsC4 : List TaskOp :=
  [.leaseHit 1, .update ⟨some 3, none, some 100, none, none, none⟩ 2]

/-- A raw `PUT /task/{id}` body naming the immutable field `input`
alongside one mutable field. -/
def rawRequestC5 : RawUpdateRequest :=
  { known := ⟨none, some [("note", JLit.str "x")], none, none, none, none⟩
    extraKeys := ["input"] }

/-- Store holding one queued task with a non-trivial input. -/
def storeC5 : Store :=
  ⟨[{ mkQueuedTask 0 "chunk" 0 0 with input := [("s3_key", JLit.str "k")] }], []⟩

/-- An all-absent parsed update body. -/
def emptyUpdateBody : UpdateTaskBody := ⟨none, none, none, none, none, none⟩

/-- A raw `PUT /task/{id}` body naming only the immutable field
`input`. -/
def rawOnlyInputC5 : RawUpdateRequest :=
  { known := emptyUpdateBody, extraKeys := ["input"] }

/-- Eleven identical chunks — one more than the claimed semaphore
bound of 10. -/
def elevenChunks : List JObj :=
  List.replicate 11 [("chunk_id", JLit.str "c")]

/-- A consumer whose health endpoint answers 201 Created. -/
def consumerC9 : Consumer := mkConsumer "http://w:1/" "chunk" true

/-- Store with one task whose (lowercased) name is not a registry key
and one ready consumer of that topic; claim C10's witness input. -/
def storeC10 : Store :=
  ⟨[mkQueuedTask 0 "Bogus" 0 0], [mkConsumer "http://b:1/" "Bogus" true]⟩

/-- Store with one ready consumer and one eligible queued task of
topic `chunk`; claim C2's witness input. -/
def storeC2 : Store :=
  ⟨[mkQueuedTask 0 "chunk" 0 3], [mkConsumer "http://c:1/" "chunk" true]⟩

/-- Two queued tasks of the same topic with equal
`scheduled_start_timestamp` and distinct `creation_timestamp`, plus
one ready consumer: the tie the FIFO claim is about. -/
def taskTieA : Task := mkQueuedTask 0 "chunk" 1 5
def taskTieB : Task := mkQueuedTask 1 "chunk" 2 5
def storeC1 : Store := ⟨[taskTieA, taskTieB], [mkConsumer "http://c:1/" "chunk" true]⟩

/-! ## Supporting lemmas -/

theorem applyTaskRules_id (t : Task) (b : UpdateTaskBody) (now : Nat) :
    (applyTaskRules t b now).id = t.id := by
  simp only [applyTaskRules, applyPayload]
  split_ifs <;> rfl

theorem applyTaskRules_name (t : Task) (b : UpdateTaskBody) (now : Nat) :
    (applyTaskRules t b now).name = t.name := by
  simp only [applyTaskRules, applyPayload]
  split_ifs <;> rfl

theorem applyTaskRules_creation (t : Task) (b : UpdateTaskBody) (now : Nat) :
    (applyTaskRules t b now).creation_timestamp = t.creation_timestamp := by
  simp only [applyTaskRules, applyPayload]
  split_ifs <;> rfl

theorem applyTaskRules_workspace (t : Task) (b : UpdateTaskBody) (now : Nat) :
    (applyTaskRules t b now).workspace_id = t.workspace_id := by
  simp only [applyTaskRules, applyPayload]
  split_ifs <;> rfl

theorem applyTaskRules_input (t : Task) (b : UpdateTaskBody) (now : Nat) :
    (applyTaskRules t b now).input = t.input := by
  simp only [applyTaskRules, applyPayload]
  split_ifs <;> rfl

theorem applyTaskRules_status_code (t : Task) (b : UpdateTaskBody) (now : Nat) :
    (applyTaskRules t b now).status_code = b.status_code.getD t.status_code := by
  simp only [applyTaskRules, applyPayload]
  split_ifs <;> rfl

theorem applyTaskRules_invariant (t : Task) (b : UpdateTaskBody) (now : Nat) :
    statusEndInvariant (applyTaskRules t b now) := by
  unfold statusEndInvariant
  simp only [applyTaskRules, applyPayload]
  split_ifs <;> simp_all

theorem leaseTaskRow_invariant (t : Task) (now : Nat) :
    statusEndInvariant (leaseTaskRow t now) := by
  simp [statusEndInvariant, leaseTaskRow]

theorem step_preserves_invariant (t : Task) (op : TaskOp)
    (h : statusEndInvariant t) : statusEndInvariant (t.step op) := by
  cases op with
  | update b now => exact applyTaskRules_invariant t b now
  | leaseHit now =>
      simp only [Task.step]
      split
      · exact leaseTaskRow_invariant t now
      · exact h

theorem find?_key_of_mem {α κ : Type} [DecidableEq κ] (key : α → κ)
    {l : List α} {x : α} (hn : (l.map key).Nodup) (hx : x ∈ l) :
    l.find? (fun y => key y == key x) = some x := by
  induction l with
  | nil => cases hx
  | cons a as ih =>
      simp only [List.map_cons, List.nodup_cons] at hn
      rcases List.mem_cons.mp hx with rfl | hx'
      · simp [List.find?_cons]
      · have hne : (key a == key x) = false := by
          rw [beq_eq_false_iff_ne]
          intro he
          exact hn.1 (he ▸ List.mem_map_of_mem key hx')
        rw [List.find?_cons, hne]
        exact ih hn.2 hx'

theorem find?_queued_of_mem {l : List Task} {x : Task}
    (hn : (l.map Task.id).Nodup) (hx : x ∈ l) (h0 : x.status_code = 0) :
    l.find? (fun u => u.id == x.id && u.status_code == 0) = some x := by
  induction l with
  | nil => cases hx
  | cons a as ih =>
      simp only [List.map_cons, List.nodup_cons] at hn
      rcases List.mem_cons.mp hx with rfl | hx'
      · simp [List.find?_cons, h0]
      · have hne : (a.id == x.id) = false := by
          rw [beq_eq_false_iff_ne]
          intro he
          exact hn.1 (he ▸ List.mem_map_of_mem Task.id hx')
        rw [List.find?_cons, hne, Bool.false_and]
        exact ih hn.2 hx'

theorem mem_patch_of_key_ne {α κ : Type} [DecidableEq κ] (key : α → κ)
    (f : α → α) (k : κ) {l : List α} {u : α} (hu : u ∈ l)
    (hne : key u ≠ k) :
    u ∈ l.map (fun t => if key t == k then f t else t) := by
  have h : (if (key u == k) = true then f u else u) ∈
      l.map (fun t => if key t == k then f t else t) :=
    List.mem_map_of_mem (fun t => if key t == k then f t else t) hu
  rwa [if_neg (by simp [hne])] at h

theorem patched_mem {α κ : Type} [DecidableEq κ] (key : α → κ)
    (f : α → α) (k : κ) {l : List α} {u : α} (hu : u ∈ l)
    (heq : key u = k) :
    f u ∈ l.map (fun t => if key t == k then f t else t) := by
  have h : (if (key u == k) = true then f u else u) ∈
      l.map (fun t => if key t == k then f t else t) :=
    List.mem_map_of_mem (fun t => if key t == k then f t else t) hu
  rwa [if_pos (by simp [heq])] at h

theorem map_key_patch {α κ : Type} [DecidableEq κ] (key : α → κ)
    (f : α → α) (k : κ) (l : List α) (hf : ∀ t, key (f t) = key t) :
    (l.map (fun t => if key t == k then f t else t)).map key = l.map key := by
  rw [List.map_map]
  apply List.map_congr_left
  intro a _
  by_cases h : key a = k
  · simp [Function.comp, h, hf]
  · simp [Function.comp, h]

theorem updateTaskFields_consumers (s : Store) (tid : Nat)
    (b : UpdateTaskBody) (now : Nat) :
    (updateTaskFields s tid b now).consumers = s.consumers := by
  unfold updateTaskFields
  split <;> rfl

theorem updateTaskFields_mem_of_ne {s : Store} {u : Task} (tid : Nat)
    (b : UpdateTaskBody) (now : Nat) (hu : u ∈ s.tasks) (hne : u.id ≠ tid) :
    u ∈ (updateTaskFields s tid b now).tasks := by
  unfold updateTaskFields
  split
  · exact hu
  · exact mem_patch_of_key_ne Task.id (fun t => applyTaskRules t b now) tid hu hne

theorem updateTaskFields_map_id (s : Store) (tid : Nat)
    (b : UpdateTaskBody) (now : Nat) :
    (updateTaskFields s tid b now).tasks.map Task.id = s.tasks.map Task.id := by
  unfold updateTaskFields
  split
  · rfl
  · exact map_key_patch Task.id (fun t => applyTaskRules t b now) tid s.tasks
      (fun t => applyTaskRules_id t b now)

theorem providedFields_subset (b : UpdateTaskBody) :
    (b.providedFields).all (fun f => allowedFields.contains f) = true := by
  obtain ⟨sc, st, pp, op, sta, ss⟩ := b
  cases sc <;> cases st <;> cases pp <;> cases op <;> cases sta <;> cases ss <;> rfl

theorem providedFields_ne_nil_of_status_code {b : UpdateTaskBody} {c : Nat}
    (h : b.status_code = some c) : b.providedFields.isEmpty = false := by
  simp [UpdateTaskBody.providedFields, h]

/-- Inversion of a committed lease transaction: the exact rows it saw
and the exact store it wrote. -/
theorem leaseTxn_inv {s : Store} {e : String} {tid now : Nat}
    {s1 : Store} {t0 : Task} (h : leaseTxn s e tid now = some (s1, t0)) :
    ∃ c ∈ s.consumers, c.endpoint_url = e ∧ c.is_ready = true ∧
    ∃ t1 ∈ s.tasks, t1.id = tid ∧ t1.status_code = 0 ∧
      t0 = leaseTaskRow t1 now ∧
      s1 = { tasks := s.tasks.map (fun u => if u.id == tid then leaseTaskRow u now else u),
             consumers := s.consumers.map (fun d => if d.endpoint_url == e then { d with is_ready := false } else d) } := by
  unfold leaseTxn at h
  split at h
  · cases h
  · rename_i c hc
    split at h
    · cases h
    · rename_i hnr
      split at h
      · cases h
      · rename_i t1 ht
        have hpair := Option.some.inj h
        have hce : c.endpoint_url = e := by
          have := List.find?_some hc
          simpa using this
        have hr : c.is_ready = true := by
          simpa using hnr
        have ht1 := List.find?_some ht
        simp only [Bool.and_eq_true, beq_iff_eq] at ht1
        refine ⟨c, List.mem_of_find?_eq_some hc, hce, hr, t1,
          List.mem_of_find?_eq_some ht, ht1.1, ht1.2, ?_, ?_⟩
        · exact (congrArg Prod.snd hpair).symm
        · exact (congrArg Prod.fst hpair).symm

/-- A lease transaction whose candidate rows are still ready and
queued commits, and writes exactly the two patched tables. -/
theorem leaseTxn_commits {s : Store} {e : String} {tid : Nat} (now : Nat)
    {c : Consumer} {t : Task}
    (hnt : (s.tasks.map Task.id).Nodup)
    (hnc : (s.consumers.map Consumer.endpoint_url).Nodup)
    (hc : c ∈ s.consumers) (hce : c.endpoint_url = e) (hr : c.is_ready = true)
    (ht : t ∈ s.tasks) (hid : t.id = tid) (h0 : t.status_code = 0) :
    leaseTxn s e tid now =
      some ({ tasks := s.tasks.map (fun u => if u.id == tid then leaseTaskRow u now else u),
              consumers := s.consumers.map (fun d => if d.endpoint_url == e then { d with is_ready := false } else d) },
            leaseTaskRow t now) := by
  subst hce hid
  unfold leaseTxn
  rw [find?_key_of_mem Consumer.endpoint_url hnc hc]
  simp only [hr, Bool.not_true, Bool.false_eq_true, if_false,
    find?_queued_of_mem hnt ht h0]

theorem dispatchLeased_tasks_map_id (s : Store) (t : Task) (now : Nat) :
    (dispatchLeased s t now).1.tasks.map Task.id = s.tasks.map Task.id := by
  unfold dispatchLeased
  split
  · rfl
  · split
    · rfl
    · exact updateTaskFields_map_id _ _ _ _
  · exact updateTaskFields_map_id _ _ _ _

theorem dispatchLeased_mem_of_ne {s : Store} {u : Task} {t : Task} (now : Nat)
    (hu : u ∈ s.tasks) (hne : u.id ≠ t.id) :
    u ∈ (dispatchLeased s t now).1.tasks := by
  unfold dispatchLeased
  split
  · exact hu
  · split
    · exact hu
    · exact updateTaskFields_mem_of_ne _ _ _ hu hne
  · exact updateTaskFields_mem_of_ne _ _ _ hu hne

theorem dispatchLeased_consumers (s : Store) (t : Task) (now : Nat) :
    (dispatchLeased s t now).1.consumers = s.consumers := by
  unfold dispatchLeased
  split
  · rfl
  · split
    · rfl
    · exact updateTaskFields_consumers _ _ _ _
  · exact updateTaskFields_consumers _ _ _ _

theorem leaseStep_of_none {s : Store} {e : String} {tid now : Nat}
    (h : leaseTxn s e tid now = none) : leaseStep s e tid now = (s, none) := by
  unfold leaseStep
  rw [h]

theorem leaseStep_of_some {s : Store} {e : String} {tid now : Nat}
    {s1 : Store} {t0 : Task} (h : leaseTxn s e tid now = some (s1, t0)) :
    leaseStep s e tid now =
      ((dispatchLeased s1 t0 now).1, some (dispatchLeased s1 t0 now).2) := by
  unfold leaseStep
  rw [h]

theorem leaseStep_tasks_map_id (s : Store) (e : String) (tid now : Nat) :
    (leaseStep s e tid now).1.tasks.map Task.id = s.tasks.map Task.id := by
  cases h : leaseTxn s e tid now with
  | none => rw [leaseStep_of_none h]
  | some p =>
      obtain ⟨s1, t0⟩ := p
      rw [leaseStep_of_some h]
      obtain ⟨c, hc, hce, hr, t1, ht1, hid, h0, ht0, hs1⟩ := leaseTxn_inv h
      rw [dispatchLeased_tasks_map_id, hs1]
      exact map_key_patch Task.id _ tid s.tasks (fun t => rfl)

theorem leaseStep_consumers_map (s : Store) (e : String) (tid now : Nat) :
    (leaseStep s e tid now).1.consumers.map Consumer.endpoint_url =
      s.consumers.map Consumer.endpoint_url := by
  cases h : leaseTxn s e tid now with
  | none => rw [leaseStep_of_none h]
  | some p =>
      obtain ⟨s1, t0⟩ := p
      rw [leaseStep_of_some h]
      obtain ⟨c, hc, hce, hr, t1, ht1, hid, h0, ht0, hs1⟩ := leaseTxn_inv h
      rw [dispatchLeased_consumers, hs1]
      exact map_key_patch Consumer.endpoint_url _ e s.consumers (fun d => rfl)

theorem leaseStep_mem_task_of_ne {s : Store} {e : String} {tid now : Nat}
    {u : Task} (hu : u ∈ s.tasks) (hne : u.id ≠ tid) :
    u ∈ (leaseStep s e tid now).1.tasks := by
  cases h : leaseTxn s e tid now with
  | none => rw [leaseStep_of_none h]; exact hu
  | some p =>
      obtain ⟨s1, t0⟩ := p
      rw [leaseStep_of_some h]
      obtain ⟨c, hc, hce, hr, t1, ht1, hid, h0, ht0, hs1⟩ := leaseTxn_inv h
      have hu1 : u ∈ s1.tasks := by
        rw [hs1]
        exact mem_patch_of_key_ne Task.id _ tid hu hne
      have hid0 : t0.id = tid := by rw [ht0]; simp [leaseTaskRow, hid]
      exact dispatchLeased_mem_of_ne now hu1 (by rw [hid0]; exact hne)

theorem leaseStep_mem_consumer_of_ne {s : Store} {e : String} {tid now : Nat}
    {d : Consumer} (hd : d ∈ s.consumers) (hne : d.endpoint_url ≠ e) :
    d ∈ (leaseStep s e tid now).1.consumers := by
  cases h : leaseTxn s e tid now with
  | none => rw [leaseStep_of_none h]; exact hd
  | some p =>
      obtain ⟨s1, t0⟩ := p
      rw [leaseStep_of_some h]
      obtain ⟨c, hc, hce, hr, t1, ht1, hid, h0, ht0, hs1⟩ := leaseTxn_inv h
      rw [dispatchLeased_consumers, hs1]
      exact mem_patch_of_key_ne Consumer.endpoint_url _ e hd hne

/-- The pairing loop of a broker pass: when the fed pairs name
pairwise-distinct ready consumers and pairwise-distinct queued tasks,
every lease commits, the trace records exactly the fed pairs in
order, and unpaired rows survive. -/
theorem assignPairs_spec (now : Nat) :
    ∀ (pairs : List (String × Nat)) (s : Store),
      (s.tasks.map Task.id).Nodup →
      (s.consumers.map Consumer.endpoint_url).Nodup →
      (pairs.map Prod.fst).Nodup → (pairs.map Prod.snd).Nodup →
      (∀ p ∈ pairs,
        (∃ c ∈ s.consumers, c.endpoint_url = p.1 ∧ c.is_ready = true) ∧
        (∃ t ∈ s.tasks, t.id = p.2 ∧ t.status_code = 0)) →
      ((assignPairs s pairs now).2.map (fun x => (x.1, x.2.1)) = pairs) ∧
      (∀ x ∈ (assignPairs s pairs now).2, x.2.2.isSome = true) ∧
      (∀ u ∈ s.tasks, u.id ∉ pairs.map Prod.snd →
        u ∈ (assignPairs s pairs now).1.tasks) ∧
      (∀ d ∈ s.consumers, d.endpoint_url ∉ pairs.map Prod.fst →
        d ∈ (assignPairs s pairs now).1.consumers)
  | [], s, _, _, _, _, _ => by
      simp [assignPairs]
  | (e, tid) :: rest, s, hnt, hnc, hpf, hps, hcond => by
      obtain ⟨⟨c, hc, hce, hr⟩, ⟨t, ht, hid, h0⟩⟩ :=
        hcond (e, tid) (List.mem_cons_self _ _)
      have hcommit := leaseTxn_commits now hnt hnc hc hce hr ht hid h0
      have hstep := leaseStep_of_some hcommit
      set s2 := (leaseStep s e tid now).1 with hs2
      simp only [List.map_cons, List.nodup_cons] at hpf hps
      -- conditions for the remaining pairs, in the updated store
      have hcond2 : ∀ p ∈ rest,
          (∃ c' ∈ s2.consumers, c'.endpoint_url = p.1 ∧ c'.is_ready = true) ∧
          (∃ t' ∈ s2.tasks, t'.id = p.2 ∧ t'.status_code = 0) := by
        intro p hp
        obtain ⟨⟨c', hc', hce', hr'⟩, ⟨t', ht', hid', h0'⟩⟩ :=
          hcond p (List.mem_cons_of_mem _ hp)
        refine ⟨⟨c', ?_, hce', hr'⟩, ⟨t', ?_, hid', h0'⟩⟩
        · exact leaseStep_mem_consumer_of_ne hc'
            (by rw [hce']; intro hh; exact hpf.1 (hh ▸ List.mem_map_of_mem Prod.fst hp))
        · exact leaseStep_mem_task_of_ne ht'
            (by rw [hid']; intro hh; exact hps.1 (hh ▸ List.mem_map_of_mem Prod.snd hp))
      have hnt2 : (s2.tasks.map Task.id).Nodup := by
        rw [hs2, leaseStep_tasks_map_id]; exact hnt
      have hnc2 : (s2.consumers.map Consumer.endpoint_url).Nodup := by
        rw [hs2, leaseStep_consumers_map]; exact hnc
      obtain ⟨ih1, ih2, ih3, ih4⟩ :=
        assignPairs_spec now rest s2 hnt2 hnc2 hpf.2 hps.2 hcond2
      have hassign : assignPairs s ((e, tid) :: rest) now =
          ((assignPairs s2 rest now).1,
            (e, tid, (leaseStep s e tid now).2) :: (assignPairs s2 rest now).2) := by
        rw [hs2]
        rfl
      refine ⟨?_, ?_, ?_, ?_⟩
      · rw [hassign]
        simp only [List.map_cons, ih1]
      · rw [hassign]
        intro x hx
        rcases List.mem_cons.mp hx with rfl | hx'
        · rw [hstep]; rfl
        · exact ih2 x hx'
      · intro u hu hnotin
        simp only [List.map_cons, List.mem_cons] at hnotin
        push_neg at hnotin
        rw [hassign]
        exact ih3 u (leaseStep_mem_task_of_ne hu hnotin.1) hnotin.2
      · intro d hd hnotin
        simp only [List.map_cons, List.mem_cons] at hnotin
        push_neg at hnotin
        rw [hassign]
        exact ih4 d (leaseStep_mem_consumer_of_ne hd hnotin.1) hnotin.2

theorem runOps_preserves_invariant (ops : List TaskOp) :
    ∀ t : Task, statusEndInvariant t → statusEndInvariant (runOps t ops) := by
  induction ops with
  | nil => exact fun t h => h
  | cons op rest ih =>
      intro t h
      exact ih (t.step op) (step_preserves_invariant t op h)

/-! ## Claims -/

/-- Claim C3, counterexample: a `PUT /task/{id}` that moves a
Succeeded task (status 2) back to Running (status 1) — a transition
outside the allowed set — is answered with 200 and applied to the
stored row, not rejected with a 400 and the row left unchanged. -/
theorem C3_illegal_transition_accepted :
    (updateTask storeC3 0 bodyTo1 5).1 = HttpOutcome.ok ∧
    (updateTask storeC3 0 bodyTo1 5).2.tasks.map Task.status_code = [1] ∧
    storeC3.tasks.map Task.status_code = [2] := by
  decide

/-- Claim C3, amended: `update_task` performs no status-transition
validation at all: a `PUT /task/{id}` providing `status_code = c` is
accepted with 200 regardless of the stored status (so 2 to 1, 3 to 1,
2 to 3 and every other transition goes through), and the stored
status_code becomes `c`. -/
theorem C3_amended_no_transition_validation :
    ∀ (s : Store) (t : Task) (now c : Nat) (b : UpdateTaskBody),
      (s.tasks.map Task.id).Nodup → t ∈ s.tasks →
      b.status_code = some c →
      (updateTask s t.id b now).1 = HttpOutcome.ok ∧
      ∃ t' ∈ (updateTask s t.id b now).2.tasks,
        t'.id = t.id ∧ t'.status_code = c := by
  intro s t now c b hn ht hbc
  have hfind := find?_key_of_mem Task.id hn ht
  simp only [updateTask, providedFields_ne_nil_of_status_code hbc,
    Bool.false_eq_true, if_false, providedFields_subset, Bool.not_true, hfind]
  refine ⟨by trivial, applyTaskRules t b now,
    patched_mem Task.id (fun u => applyTaskRules u b now) t.id ht rfl,
    applyTaskRules_id t b now, ?_⟩
  rw [applyTaskRules_status_code, hbc]
  rfl

/-- Claim C3, witness for the amended theorem. -/
theorem C3_amended_witness :
    (storeC3.tasks.map Task.id).Nodup ∧ succeededTaskFixture ∈ storeC3.tasks ∧
    bodyTo1.status_code = some 1 ∧
    ((updateTask storeC3 succeededTaskFixture.id bodyTo1 5).1 = HttpOutcome.ok ∧
      ∃ t' ∈ (updateTask storeC3 succeededTaskFixture.id bodyTo1 5).2.tasks,
        t'.id = succeededTaskFixture.id ∧ t'.status_code = 1) :=
  ⟨by decide, by decide, by decide,
    C3_amended_no_transition_validation storeC3 succeededTaskFixture 5 1 bodyTo1
      (by decide) (by decide) (by decide)⟩

/-- Claim C4, counterexample: the legal history create, lease at
time 1, worker FAIL at time 2 with progress 100 ends with
`progress_percentage = 100` and `end_timestamp` set but
`status_code = 3`, refuting the claimed equivalence
`status_code = 2 ⇔ progress_percentage = 100 ∧ end_timestamp ≠ null`
(and with it the equivalence `end_timestamp set ⇔ status ∈ {2,3}`
read in the claimed biconditional strength for arbitrary updates). -/
theorem C4_failed_task_with_full_progress :
    (runOps (newTask ⟨"chunk", none, [], none⟩ 0 0) opsC4).status_code = 3 ∧
    (runOps (newTask ⟨"chunk", none, [], none⟩ 0 0) opsC4).progress_percentage = 100 ∧
    (runOps (newTask ⟨"chunk", none, [], none⟩ 0 0) opsC4).end_timestamp = some 2 := by
  decide

/-- Claim C4, amended: after any sequence of task-store operations on
a created task (updates through the shared mutation rules and broker
lease hits), the implications that do hold are: status 2 implies
progress 100 and a set end timestamp, and status 2 or 3 implies a set
end timestamp.  The converse directions of the claimed equivalences
fail (see the counterexample). -/
theorem C4_status_invariants (b : CreateTaskBody) (now0 tid : Nat)
    (ops : List TaskOp) :
    statusEndInvariant (runOps (newTask b now0 tid) ops) := by
  apply runOps_preserves_invariant
  simp [statusEndInvariant, newTask]

/-- Claim C4, witness for the amended theorem. -/
theorem C4_status_invariants_witness :
    statusEndInvariant (runOps (newTask ⟨"chunk", none, [], none⟩ 0 0) opsC4) :=
  C4_status_invariants ⟨"chunk", none, [], none⟩ 0 0 opsC4

/-- Claim C5, counterexample: a `PUT /task/{id}` body naming the
immutable field `input` alongside the mutable field `status` is not
rejected: pydantic drops the unknown key, the request is answered 200
and the mutable field is applied, so the task does change (the
`input` itself stays).  Only the 400-on-any-foreign-field half of the
claim fails. -/
theorem C5_foreign_field_not_rejected :
    "input" ∈ rawRequestC5.extraKeys ∧ "input" ∉ allowedFields ∧
    (updateTask storeC5 0 (parseUpdateRequest rawRequestC5) 7).1 = HttpOutcome.ok ∧
    (updateTask storeC5 0 (parseUpdateRequest rawRequestC5) 7).2 ≠ storeC5 := by
  decide

/-- Claim C5, amended: no `PUT /task/{id}` ever changes a task's
`input`, `id`, `name`, `creation_timestamp` or `workspace_id` (the
rows correspond one to one with all five fields preserved); and a
request providing none of the six mutable fields — in particular one
naming only foreign fields such as `input` — is rejected with 400 and
leaves the store unchanged.  A request mixing foreign and mutable
fields is, however, accepted: the foreign keys are silently dropped. -/
theorem C5_immutable_fields :
    ∀ (s : Store) (tid now : Nat) (r : RawUpdateRequest),
      List.Forall₂ (fun t t' => t'.id = t.id ∧ t'.name = t.name ∧
          t'.creation_timestamp = t.creation_timestamp ∧
          t'.workspace_id = t.workspace_id ∧ t'.input = t.input)
        s.tasks (updateTask s tid (parseUpdateRequest r) now).2.tasks ∧
      ((parseUpdateRequest r).providedFields = [] →
        updateTask s tid (parseUpdateRequest r) now = (.badRequest, s)) := by
  intro s tid now r
  constructor
  · have hsame : List.Forall₂ (fun t t' => t'.id = t.id ∧ t'.name = t.name ∧
        t'.creation_timestamp = t.creation_timestamp ∧
        t'.workspace_id = t.workspace_id ∧ t'.input = t.input) s.tasks s.tasks :=
      List.forall₂_same.mpr (fun x _ => ⟨rfl, rfl, rfl, rfl, rfl⟩)
    simp only [updateTask]
    split
    · exact hsame
    · split
      · exact hsame
      · split
        · exact hsame
        · apply List.forall₂_map_right_iff.mpr
          apply List.forall₂_same.mpr
          intro x _
          by_cases h : (x.id == tid) = true
          · rw [if_pos h]
            exact ⟨applyTaskRules_id x _ now, applyTaskRules_name x _ now,
              applyTaskRules_creation x _ now, applyTaskRules_workspace x _ now,
              applyTaskRules_input x _ now⟩
          · rw [if_neg h]
            exact ⟨rfl, rfl, rfl, rfl, rfl⟩
  · intro h
    simp [updateTask, h]

/-- Claim C5, witness for the amended theorem. -/
theorem C5_immutable_fields_witness :
    (parseUpdateRequest rawOnlyInputC5).providedFields = [] ∧
    List.Forall₂ (fun t t' => t'.id = t.id ∧ t'.name = t.name ∧
        t'.creation_timestamp = t.creation_timestamp ∧
        t'.workspace_id = t.workspace_id ∧ t'.input = t.input)
      storeC5.tasks
      (updateTask storeC5 0 (parseUpdateRequest rawOnlyInputC5) 7).2.tasks ∧
    updateTask storeC5 0 (parseUpdateRequest rawOnlyInputC5) 7 =
      (.badRequest, storeC5) :=
  ⟨by decide, (C5_immutable_fields storeC5 0 7 rawOnlyInputC5).1,
    (C5_immutable_fields storeC5 0 7 rawOnlyInputC5).2 (by decide)⟩

/-- Claim C7, counterexample: a fan-out over 11 chunks creates and
starts 11 concurrent child tasks before anything is awaited — there
is no semaphore in the fan-out code, so the claimed bound of 10 is
exceeded. -/
theorem C7_no_semaphore_bound :
    fanoutPeakConcurrency elevenChunks = 11 ∧
    ¬ fanoutPeakConcurrency elevenChunks ≤ 10 ∧
    (fanoutChildBodies "redact" elevenChunks 1).length = 11 := by
  decide

/-- Claim C7, amended: a fan-out step creates exactly one child task
per chunk (all on the step's topic), starts all of them concurrently
with no bound (the peak concurrency equals the chunk count — there is
no semaphore), awaits them all, and fails iff some child task ends
Failed. -/
theorem C7_fanout_children :
    ∀ (step : String) (chunks : List JObj) (ws : Int)
      (outcomes : List Terminal),
      (fanoutChildBodies step chunks ws).length = chunks.length ∧
      (fanoutChildBodies step chunks ws).map CreateTaskBody.name =
        List.replicate chunks.length step ∧
      fanoutPeakConcurrency chunks = chunks.length ∧
      ((fanoutGather step outcomes = Except.ok ()) ↔
        outcomes.all (fun o => o == Terminal.succeeded) = true) := by
  intro step chunks ws outcomes
  refine ⟨by simp [fanoutChildBodies], ?_, rfl, ?_⟩
  · simp only [fanoutChildBodies, List.map_map]
    exact List.map_const' chunks step
  · unfold fanoutGather
    by_cases h : outcomes.any (fun o => o == Terminal.failed) = true
    · rw [if_pos h]
      simp only [List.any_eq_true, beq_iff_eq] at h
      obtain ⟨o, ho, rfl⟩ := h
      constructor
      · intro h'
        cases h'
      · intro hall
        simp only [List.all_eq_true, beq_iff_eq] at hall
        cases hall _ ho
    · rw [if_neg h]
      simp only [List.any_eq_true, beq_iff_eq, not_exists, not_and] at h
      constructor
      · intro _
        simp only [List.all_eq_true, beq_iff_eq]
        intro o ho
        cases o with
        | succeeded => rfl
        | failed => exact absurd rfl (h _ ho)
      · intro _
        rfl

/-- Claim C7, witness for the amended theorem. -/
theorem C7_fanout_children_witness :
    (fanoutChildBodies "redact" elevenChunks 1).length = elevenChunks.length ∧
    (fanoutChildBodies "redact" elevenChunks 1).map CreateTaskBody.name =
      List.replicate elevenChunks.length "redact" ∧
    fanoutPeakConcurrency elevenChunks = elevenChunks.length ∧
    ((fanoutGather "redact" [Terminal.succeeded] = Except.ok ()) ↔
      [Terminal.succeeded].all (fun o => o == Terminal.succeeded) = true) :=
  C7_fanout_children "redact" elevenChunks 1 [Terminal.succeeded]

/-- Claim C8, counterexample: with a child that fails on every
attempt, the retry loop makes exactly 3 attempts in total — the first
attempt plus 2 retries (with backoffs of 2 s and 4 s) — and then the
parent fails; it does not grant 3 retries after the first failure
(which would be 4 attempts). -/
theorem C8_three_attempts_total :
    retrySingleStep (fun _ => .failed) = (false, 3, [2, 4]) ∧
    (3 : Nat) - 1 ≠ 3 := by
  decide

/-- Claim C8, amended: a single-output step is attempted at most 3
times in total, each attempt creating a fresh child task; after a
failed non-final attempt `k` the orchestrator sleeps `2*k` seconds
(linear backoff 2 s, 4 s); the parent only fails when all 3 attempts
failed. -/
theorem C8_retry_loop :
    ∀ r : Nat → Terminal,
      retrySingleStep r =
        (if r 1 = .succeeded then (true, 1, ([] : List Nat))
         else if r 2 = .succeeded then (true, 2, [2])
         else if r 3 = .succeeded then (true, 3, [2, 4])
         else (false, 3, [2, 4])) ∧
      ((retrySingleStep r).1 = true ↔
        r 1 = .succeeded ∨ r 2 = .succeeded ∨ r 3 = .succeeded) := by
  intro r
  cases h1 : r 1 <;> cases h2 : r 2 <;> cases h3 : r 3 <;>
    simp [retrySingleStep, retryAux, h1, h2, h3]

/-- Claim C8, witness for the amended theorem. -/
theorem C8_retry_loop_witness :
    (retrySingleStep (fun _ => Terminal.succeeded) =
      (if (fun _ => Terminal.succeeded) 1 = Terminal.succeeded then
        (true, 1, ([] : List Nat))
       else if (fun _ => Terminal.succeeded) 2 = Terminal.succeeded then
        (true, 2, [2])
       else if (fun _ => Terminal.succeeded) 3 = Terminal.succeeded then
        (true, 3, [2, 4])
       else (false, 3, [2, 4]))) ∧
    ((retrySingleStep (fun _ => Terminal.succeeded)).1 = true ↔
      (fun _ => Terminal.succeeded) 1 = Terminal.succeeded ∨
      (fun _ => Terminal.succeeded) 2 = Terminal.succeeded ∨
      (fun _ => Terminal.succeeded) 3 = Terminal.succeeded) :=
  C8_retry_loop (fun _ => Terminal.succeeded)

/-- Claim C9, counterexample: a consumer whose health endpoint
answers 201 — a 2xx status — is deleted by the pruner pass, because
the code only retains statuses 200 and 204. -/
theorem C9_deletes_on_201 :
    healthRetained (.ok 201) = false ∧ 200 ≤ 201 ∧ 201 < 300 ∧
    (prunePass ⟨[], [consumerC9]⟩ (fun _ => .ok 201)).consumers = [] := by
  decide

/-- Claim C9, amended: a pruner pass checks the first 200
registrations; a checked registration survives the pass iff its
health probe returns status 200 or 204 (any other status — including
other 2xx codes such as 201 or 202 — and any error causes deletion);
registrations beyond the check batch are retained regardless. -/
theorem C9_prune_rule :
    ∀ (s : Store) (health : String → HealthResult) (c : Consumer),
      (s.consumers.map Consumer.endpoint_url).Nodup →
      (c ∈ s.consumers.take 200 →
        (c ∈ (prunePass s health).consumers ↔
          healthRetained (health c.health_url) = true)) ∧
      (c ∈ s.consumers.drop 200 → c ∈ (prunePass s health).consumers) := by
  intro s health c hn
  have hinj := List.inj_on_of_nodup_map hn
  have hmem : ∀ x : Consumer, x ∈ (prunePass s health).consumers ↔
      x ∈ s.consumers ∧
      ¬ ∃ c' ∈ s.consumers.take 200,
          healthRetained (health c'.health_url) = false ∧
          c'.endpoint_url = x.endpoint_url := by
    intro x
    unfold prunePass
    rw [List.mem_filter]
    constructor
    · rintro ⟨hx, hdead⟩
      refine ⟨hx, ?_⟩
      rintro ⟨c', hc', hf, hee⟩
      have hmm : x.endpoint_url ∈ ((s.consumers.take 200).filter
          (fun d => !(healthRetained (health d.health_url)))).map
            (fun y : Consumer => y.endpoint_url) := by
        rw [← hee]
        exact List.mem_map_of_mem _ (List.mem_filter.mpr ⟨hc', by simp [hf]⟩)
      have hc2 := List.elem_iff.mpr hmm
      simp only [List.contains] at hdead
      rw [hc2] at hdead
      exact absurd hdead (by decide)
    · rintro ⟨hx, hnone⟩
      refine ⟨hx, ?_⟩
      have hnm : ¬ x.endpoint_url ∈ ((s.consumers.take 200).filter
          (fun d => !(healthRetained (health d.health_url)))).map
            (fun y : Consumer => y.endpoint_url) := by
        intro hmem'
        obtain ⟨c', hc'f, hee⟩ := List.mem_map.mp hmem'
        obtain ⟨hc't, hdd⟩ := List.mem_filter.mp hc'f
        exact hnone ⟨c', hc't, by simpa using hdd, hee⟩
      cases hcb : ((s.consumers.take 200).filter
          (fun d => !(healthRetained (health d.health_url)))).map
            (fun y : Consumer => y.endpoint_url) |>.contains x.endpoint_url with
      | false => rfl
      | true => exact absurd (List.elem_iff.mp hcb) hnm
  constructor
  · intro htake
    rw [hmem c]
    constructor
    · rintro ⟨hx, hnone⟩
      by_contra hnr
      rw [Bool.not_eq_true] at hnr
      exact hnone ⟨c, htake, hnr, rfl⟩
    · intro hret
      refine ⟨List.mem_of_mem_take htake, ?_⟩
      rintro ⟨c', hc', hf, hee⟩
      have : c' = c :=
        hinj (List.mem_of_mem_take hc') (List.mem_of_mem_take htake) hee
      rw [this] at hf
      rw [hret] at hf
      cases hf
  · intro hdrop
    have hxmem : c ∈ s.consumers := by
      conv => rw [← List.take_append_drop 200 s.consumers]
      exact List.mem_append.mpr (Or.inr hdrop)
    rw [hmem c]
    refine ⟨hxmem, ?_⟩
    rintro ⟨c', hc', hf, hee⟩
    have hceq : c' = c :=
      hinj (List.mem_of_mem_take hc') hxmem hee
    have hnd : s.consumers.Nodup := hn.of_map
    have hdisj := List.disjoint_of_nodup_append
      ((List.take_append_drop 200 s.consumers).symm ▸ hnd)
    exact hdisj (hceq ▸ hc') hdrop

/-- Claim C9, witness for the amended theorem. -/
theorem C9_prune_rule_witness :
    ((⟨[], [consumerC9]⟩ : Store).consumers.map Consumer.endpoint_url).Nodup ∧
    (consumerC9 ∈ (⟨[], [consumerC9]⟩ : Store).consumers.take 200 →
      (consumerC9 ∈ (prunePass ⟨[], [consumerC9]⟩ (fun _ => .ok 200)).consumers ↔
        healthRetained ((fun _ => HealthResult.ok 200) consumerC9.health_url) = true)) ∧
    (consumerC9 ∈ (⟨[], [consumerC9]⟩ : Store).consumers.drop 200 →
      consumerC9 ∈ (prunePass ⟨[], [consumerC9]⟩ (fun _ => .ok 200)).consumers) :=
  ⟨by decide,
    (C9_prune_rule ⟨[], [consumerC9]⟩ (fun _ => .ok 200) consumerC9 (by decide)).1,
    (C9_prune_rule ⟨[], [consumerC9]⟩ (fun _ => .ok 200) consumerC9 (by decide)).2⟩

theorem stepPriority_inj_on_steps :
    ∀ x ∈ STEP_ORDER, ∀ y ∈ STEP_ORDER,
      stepPriority x = stepPriority y → x = y := by
  decide

theorem stepPriority_strict_on_steps :
    STEP_ORDER.Pairwise (fun a b => stepPriority a < stepPriority b) := by
  decide

/-- The core of claim C6: for a duplicate-free request drawn from the
known step names, the canonicalized list is the canonical sequence
filtered to the requested steps. -/
theorem canonicalizeSteps_eq_filter {l : List String}
    (hsub : ∀ s ∈ l, s ∈ STEP_ORDER) (hnodup : l.Nodup) :
    canonicalizeSteps l = STEP_ORDER.filter (fun s => decide (s ∈ l)) := by
  haveI hto : IsTotal String (fun a b => stepPriority a ≤ stepPriority b) :=
    ⟨fun a b => Nat.le_total _ _⟩
  haveI htr : IsTrans String (fun a b => stepPriority a ≤ stepPriority b) :=
    ⟨fun _ _ _ => Nat.le_trans⟩
  haveI han : IsAntisymm String (fun a b => stepPriority a < stepPriority b) :=
    ⟨fun a b h1 h2 => absurd h1 (Nat.lt_asymm h2)⟩
  have hperm1 : (canonicalizeSteps l).Perm l :=
    List.perm_insertionSort _ l
  have hsortedLe : (canonicalizeSteps l).Pairwise
      (fun a b => stepPriority a ≤ stepPriority b) :=
    List.sorted_insertionSort _ l
  have hcanNodup : (canonicalizeSteps l).Nodup :=
    hperm1.nodup_iff.mpr hnodup
  have hpairne : (canonicalizeSteps l).Pairwise
      (fun a b => stepPriority a ≠ stepPriority b) := by
    refine hcanNodup.imp_of_mem ?_
    intro a b ha hb hne hpe
    have ha' := hperm1.mem_iff.mp ha
    have hb' := hperm1.mem_iff.mp hb
    exact hne (stepPriority_inj_on_steps a (hsub a ha') b (hsub b hb') hpe)
  have hsortedLt : (canonicalizeSteps l).Pairwise
      (fun a b => stepPriority a < stepPriority b) :=
    (hsortedLe.and hpairne).imp
      (fun h => Nat.lt_of_le_of_ne h.1 h.2)
  have hFsorted : (STEP_ORDER.filter (fun s => decide (s ∈ l))).Pairwise
      (fun a b => stepPriority a < stepPriority b) :=
    stepPriority_strict_on_steps.sublist (List.filter_sublist _)
  have hFnodup : (STEP_ORDER.filter (fun s => decide (s ∈ l))).Nodup :=
    (by decide : STEP_ORDER.Nodup).filter _
  have hFperm : (STEP_ORDER.filter (fun s => decide (s ∈ l))).Perm l := by
    apply List.perm_of_nodup_nodup_toFinset_eq hFnodup hnodup
    ext a
    simp only [List.mem_toFinset, List.mem_filter, decide_eq_true_eq]
    exact ⟨fun h => h.2, fun h => ⟨hsub a h, h⟩⟩
  exact List.eq_of_perm_of_sorted (hperm1.trans hFperm.symm) hsortedLt hFsorted

/-- Claim C6: for every requested step list drawn (without
duplicates) from the five known names, `_canonicalize_steps` returns
exactly the requested steps reordered into the fixed sequence
parse-document, chunk, redact, embed, index — absent steps omitted,
nothing added — and the result is the same for every permutation of
the submitted order. -/
theorem C6_canonical_order :
    ∀ (l l' : List String),
      (∀ s ∈ l, s ∈ STEP_ORDER) → l.Nodup → l'.Perm l →
      canonicalizeSteps l = STEP_ORDER.filter (fun s => decide (s ∈ l)) ∧
      canonicalizeSteps l' = canonicalizeSteps l := by
  intro l l' hsub hnodup hperm
  have hsub' : ∀ s ∈ l', s ∈ STEP_ORDER := fun s hs =>
    hsub s (hperm.mem_iff.mp hs)
  have hnodup' : l'.Nodup := hperm.nodup_iff.mpr hnodup
  have h1 := canonicalizeSteps_eq_filter hsub hnodup
  have h2 := canonicalizeSteps_eq_filter hsub' hnodup'
  refine ⟨h1, ?_⟩
  rw [h1, h2]
  apply List.filter_congr
  intro x _
  exact decide_eq_decide.mpr hperm.mem_iff

/-- Claim C6, witness: the spec's own example submission order. -/
theorem C6_canonical_order_witness :
    (∀ s ∈ (["embed", "chunk", "parse-document", "redact"] : List String),
      s ∈ STEP_ORDER) ∧
    (["embed", "chunk", "parse-document", "redact"] : List String).Nodup ∧
    (["redact", "embed", "chunk", "parse-document"] : List String).Perm
      ["embed", "chunk", "parse-document", "redact"] ∧
    (canonicalizeSteps ["embed", "chunk", "parse-document", "redact"] =
      STEP_ORDER.filter
        (fun s => decide (s ∈ (["embed", "chunk", "parse-document", "redact"] : List String))) ∧
     canonicalizeSteps ["redact", "embed", "chunk", "parse-document"] =
      canonicalizeSteps ["embed", "chunk", "parse-document", "redact"]) :=
  ⟨by decide, by decide, by decide,
    C6_canonical_order ["embed", "chunk", "parse-document", "redact"]
      ["redact", "embed", "chunk", "parse-document"]
      (by decide) (by decide) (by decide)⟩

/-- Claim C10 (implicit behaviour): whenever the broker successfully
leases a task whose lowercased name is not a key of the dispatch
registry, it does not dispatch the task to any worker: it immediately
marks it Failed — status_code 3, status `("error", "unknown task")`,
end timestamp set — and the matched consumer's readiness token stays
consumed (`is_ready` remains false). -/
theorem C10_unknown_task_marked_failed :
    ∀ (s : Store) (now : Nat) (c : Consumer) (t : Task),
      (s.tasks.map Task.id).Nodup →
      (s.consumers.map Consumer.endpoint_url).Nodup →
      c ∈ s.consumers → c.is_ready = true →
      t ∈ s.tasks → t.status_code = 0 →
      registryFind (strLower t.name) = none →
      (leaseStep s c.endpoint_url t.id now).2 =
        some (.markedFailed t.id) ∧
      (∃ t' ∈ (leaseStep s c.endpoint_url t.id now).1.tasks, t'.id = t.id ∧
        t'.status_code = 3 ∧
        t'.status = [("error", JLit.str "unknown task")] ∧
        t'.end_timestamp = some now) ∧
      (∃ c' ∈ (leaseStep s c.endpoint_url t.id now).1.consumers,
        c'.endpoint_url = c.endpoint_url ∧ c'.is_ready = false) := by
  intro s now c t hnt hnc hc hr ht h0 hreg
  have hcommit := leaseTxn_commits now hnt hnc hc rfl hr ht rfl h0
  have hstep := leaseStep_of_some hcommit
  set S1 : Store :=
    { tasks := s.tasks.map (fun u => if u.id == t.id then leaseTaskRow u now else u),
      consumers := s.consumers.map
        (fun d => if d.endpoint_url == c.endpoint_url then { d with is_ready := false } else d) }
    with hS1
  have hregL : registryFind (strLower (leaseTaskRow t now).name) = none := hreg
  have hdisp : dispatchLeased S1 (leaseTaskRow t now) now =
      (markTaskFailed S1 (leaseTaskRow t now).id
        (some [("error", JLit.str "unknown task")]) now,
       .markedFailed (leaseTaskRow t now).id) := by
    unfold dispatchLeased
    rw [hregL]
  have hnS1 : (S1.tasks.map Task.id).Nodup := by
    rw [hS1]
    show ((s.tasks.map (fun u => if u.id == t.id then leaseTaskRow u now else u)).map Task.id).Nodup
    rw [map_key_patch Task.id (fun u => leaseTaskRow u now) t.id s.tasks
      (fun u => rfl)]
    exact hnt
  have hLmem : leaseTaskRow t now ∈ S1.tasks := by
    rw [hS1]
    exact patched_mem Task.id _ t.id ht rfl
  have hfind : S1.tasks.find? (fun u => u.id == t.id) = some (leaseTaskRow t now) :=
    find?_key_of_mem Task.id hnS1 hLmem
  have hmf : markTaskFailed S1 (leaseTaskRow t now).id
      (some [("error", JLit.str "unknown task")]) now =
      { S1 with tasks := S1.tasks.map (fun u =>
          if u.id == t.id then
            applyTaskRules u ⟨some 3, some [("error", JLit.str "unknown task")],
              none, none, none, none⟩ now
          else u) } := by
    show updateTaskFields S1 t.id
      ⟨some 3, some [("error", JLit.str "unknown task")], none, none, none, none⟩
      now = _
    unfold updateTaskFields
    rw [hfind]
  refine ⟨?_, ?_, ?_⟩
  · rw [hstep, hdisp]
    rfl
  · rw [hstep, hdisp]
    simp only [hmf]
    refine ⟨applyTaskRules (leaseTaskRow t now)
        ⟨some 3, some [("error", JLit.str "unknown task")], none, none, none, none⟩ now,
      patched_mem Task.id _ t.id hLmem rfl, ?_, ?_, ?_, ?_⟩
    · exact applyTaskRules_id _ _ _
    · simp [applyTaskRules, applyPayload]
    · simp [applyTaskRules, applyPayload]
    · simp [applyTaskRules, applyPayload]
  · rw [hstep, hdisp]
    have hcons : (markTaskFailed S1 (leaseTaskRow t now).id
        (some [("error", JLit.str "unknown task")]) now).consumers =
        S1.consumers := by
      show (updateTaskFields S1 t.id _ now).consumers = S1.consumers
      exact updateTaskFields_consumers _ _ _ _
    rw [hcons, hS1]
    exact ⟨{ c with is_ready := false },
      patched_mem Consumer.endpoint_url _ c.endpoint_url hc rfl, rfl, rfl⟩

/-- Claim C10, witness: one ready consumer of topic `Bogus` and one
queued `Bogus` task; `bogus` is not a registry key. -/
theorem C10_unknown_task_witness :
    (storeC10.tasks.map Task.id).Nodup ∧
    (storeC10.consumers.map Consumer.endpoint_url).Nodup ∧
    mkConsumer "http://b:1/" "Bogus" true ∈ storeC10.consumers ∧
    mkQueuedTask 0 "Bogus" 0 0 ∈ storeC10.tasks ∧
    registryFind (strLower (mkQueuedTask 0 "Bogus" 0 0).name) = none ∧
    ((leaseStep storeC10 (mkConsumer "http://b:1/" "Bogus" true).endpoint_url
        (mkQueuedTask 0 "Bogus" 0 0).id 9).2 =
      some (.markedFailed (mkQueuedTask 0 "Bogus" 0 0).id) ∧
    (∃ t' ∈ (leaseStep storeC10 (mkConsumer "http://b:1/" "Bogus" true).endpoint_url
        (mkQueuedTask 0 "Bogus" 0 0).id 9).1.tasks,
      t'.id = (mkQueuedTask 0 "Bogus" 0 0).id ∧ t'.status_code = 3 ∧
      t'.status = [("error", JLit.str "unknown task")] ∧
      t'.end_timestamp = some 9) ∧
    (∃ c' ∈ (leaseStep storeC10 (mkConsumer "http://b:1/" "Bogus" true).endpoint_url
        (mkQueuedTask 0 "Bogus" 0 0).id 9).1.consumers,
      c'.endpoint_url = (mkConsumer "http://b:1/" "Bogus" true).endpoint_url ∧
      c'.is_ready = false)) :=
  ⟨by decide, by decide, by decide, by decide, by decide,
    C10_unknown_task_marked_failed storeC10 9
      (mkConsumer "http://b:1/" "Bogus" true) (mkQueuedTask 0 "Bogus" 0 0)
      (by decide) (by decide) (by decide) (by decide) (by decide) (by decide)
      (by decide)⟩

/-- Claim C2: a lease succeeds exactly when it pairs a still-ready
consumer with a still-queued task; on success, one commit flips the
consumer's `is_ready` from true to false, sets the task's
`status_code` to 1 and `modification_timestamp` to now, sets
`start_timestamp` to now iff it was null, and touches no other row or
field; on failure the store is unchanged; and the broker only feeds
the transaction pairs joining a ready consumer of the topic with a
queued task of the same topic whose scheduled start has passed. -/
theorem C2_lease_atomic :
    ∀ (s : Store) (e : String) (tid now : Nat),
      (s.tasks.map Task.id).Nodup →
      (s.consumers.map Consumer.endpoint_url).Nodup →
      C2Statement s e tid now := by
  intro s e tid now hnt hnc
  have hinjT := List.inj_on_of_nodup_map hnt
  have hinjC := List.inj_on_of_nodup_map hnc
  refine ⟨?_, ?_, ?_, ?_⟩
  · -- (1) success iff ready and queued
    constructor
    · intro hs
      obtain ⟨⟨s1, t0⟩, h⟩ := Option.isSome_iff_exists.mp hs
      obtain ⟨c, hc, hce, hr, t1, ht1, hid, h0, _, _⟩ := leaseTxn_inv h
      exact ⟨⟨c, hc, hce, hr⟩, ⟨t1, ht1, hid, h0⟩⟩
    · rintro ⟨⟨c, hc, hce, hr⟩, ⟨t, ht, hid, h0⟩⟩
      rw [leaseTxn_commits now hnt hnc hc hce hr ht hid h0]
      rfl
  · -- (2) failure frame
    exact leaseStep_of_none
  · -- (3) success postconditions
    intro s1 t0 h
    obtain ⟨c0, hc0, hce0, hr0, t1, ht1, hid1, h01, ht0, hs1⟩ := leaseTxn_inv h
    refine ⟨?_, ?_, ?_, ?_⟩
    · intro t ht hid
      have hteq : t = t1 := hinjT ht ht1 (hid.trans hid1.symm)
      subst hteq
      refine ⟨?_, ?_, ?_, ?_, ?_, ?_, ?_, ?_, ?_, ?_⟩
      · rw [hs1, ht0]
        exact patched_mem Task.id _ tid ht1 hid
      · rw [ht0]
        exact hid
      · rw [ht0]; rfl
      · rw [ht0]; rfl
      · intro hstart
        rw [ht0]
        simp [leaseTaskRow, hstart]
      · intro v hstart
        rw [ht0]
        simp [leaseTaskRow, hstart]
      · rw [ht0]; rfl
      · rw [ht0]; rfl
      · rw [ht0]; rfl
      · rw [ht0]; rfl
    · intro c hc hce
      have hceq : c = c0 := hinjC hc hc0 (hce.trans hce0.symm)
      subst hceq
      refine ⟨hr0, ?_⟩
      rw [hs1]
      exact patched_mem Consumer.endpoint_url _ e hc hce
    · intro u hu hne
      rw [hs1]
      exact mem_patch_of_key_ne Task.id _ tid hu hne
    · intro d hd hne
      rw [hs1]
      exact mem_patch_of_key_ne Consumer.endpoint_url _ e hd hne
  · -- (4) broker pairing invariants
    rintro topic res ⟨full, hfp, hfs, hres⟩ ⟨pe, pt⟩ hp
    obtain ⟨hpe, hpt⟩ := List.of_mem_zip hp
    constructor
    · obtain ⟨cc, hcc, rfl⟩ := List.mem_map.mp hpe
      have hcc1 : cc ∈ (s.consumers.filter
          (fun c => c.topic == topic && c.is_ready)).insertionSort
            (fun a b => charListLe a.endpoint_url.data b.endpoint_url.data = true) :=
        List.mem_of_mem_take hcc
      have hcc2 := (List.mem_insertionSort
        (fun a b : Consumer =>
          charListLe a.endpoint_url.data b.endpoint_url.data = true)).mp hcc1
      have hcc3 := List.mem_filter.mp hcc2
      have hprops := hcc3.2
      simp only [Bool.and_eq_true, beq_iff_eq] at hprops
      exact ⟨cc, hcc3.1, rfl, hprops.1, hprops.2⟩
    · obtain ⟨tt, htt, rfl⟩ := List.mem_map.mp hpt
      have htt1 : tt ∈ full := by
        rw [hres] at htt
        exact List.mem_of_mem_take htt
      have htt2 := hfp.mem_iff.mp htt1
      have htt3 := List.mem_filter.mp htt2
      have hprops := htt3.2
      simp only [Bool.and_eq_true, beq_iff_eq, decide_eq_true_eq] at hprops
      exact ⟨tt, htt3.1, rfl, hprops.1.1, hprops.1.2, hprops.2⟩

/-- Claim C2, witness: one ready consumer and one eligible queued
task of topic `chunk`. -/
theorem C2_lease_atomic_witness :
    (storeC2.tasks.map Task.id).Nodup ∧
    (storeC2.consumers.map Consumer.endpoint_url).Nodup ∧
    C2Statement storeC2 "http://c:1/" 0 5 :=
  ⟨by decide, by decide,
    C2_lease_atomic storeC2 "http://c:1/" 0 5 (by decide) (by decide)⟩

theorem zip_map_fst_sublist {α β : Type} :
    ∀ (l1 : List α) (l2 : List β),
      List.Sublist ((l1.zip l2).map Prod.fst) l1
  | [], _ => by simp
  | _ :: _, [] => by simp
  | a :: l1, b :: l2 => by
      simpa using (zip_map_fst_sublist l1 l2).cons₂ a

theorem zip_map_snd_sublist {α β : Type} :
    ∀ (l1 : List α) (l2 : List β),
      List.Sublist ((l1.zip l2).map Prod.snd) l2
  | [], _ => by simp
  | _ :: _, [] => by simp
  | a :: l1, b :: l2 => by
      simpa using (zip_map_snd_sublist l1 l2).cons₂ b

theorem readyConsumers_endpoints_nodup {s : Store} {topic : String}
    (hnc : (s.consumers.map Consumer.endpoint_url).Nodup) :
    ((readyConsumers s topic).map Consumer.endpoint_url).Nodup := by
  have h1 : ((s.consumers.filter
      (fun c => c.topic == topic && c.is_ready)).map Consumer.endpoint_url).Nodup :=
    hnc.sublist ((List.filter_sublist _).map _)
  have h2 : (((s.consumers.filter
      (fun c => c.topic == topic && c.is_ready)).insertionSort
        (fun a b => charListLe a.endpoint_url.data b.endpoint_url.data = true)).map
          Consumer.endpoint_url).Nodup :=
    ((List.perm_insertionSort _ _).map Consumer.endpoint_url).nodup_iff.mpr h1
  exact h2.sublist ((List.take_sublist _ _).map _)

theorem res_ids_nodup {s : Store} {topic : String} {now lim : Nat}
    {full res : List Task}
    (hnt : (s.tasks.map Task.id).Nodup)
    (hfp : full.Perm (eligibleTasks s topic now)) (hres : res = full.take lim) :
    (res.map Task.id).Nodup := by
  have h1 : ((eligibleTasks s topic now).map Task.id).Nodup :=
    hnt.sublist ((List.filter_sublist _).map _)
  have h2 : (full.map Task.id).Nodup :=
    (hfp.map Task.id).nodup_iff.mpr h1
  rw [hres]
  exact h2.sublist ((List.take_sublist _ _).map _)

theorem mem_eligibleTasks_props {s : Store} {topic : String} {now : Nat}
    {t : Task} (h : t ∈ eligibleTasks s topic now) :
    t ∈ s.tasks ∧ t.name = topic ∧ t.status_code = 0 ∧
      t.scheduled_start_timestamp ≤ now := by
  have h1 := List.mem_filter.mp h
  have h2 := h1.2
  simp only [Bool.and_eq_true, beq_iff_eq, decide_eq_true_eq] at h2
  exact ⟨h1.1, h2.1.1, h2.1.2, h2.2⟩

theorem mem_readyConsumers_props {s : Store} {topic : String}
    {c : Consumer} (h : c ∈ readyConsumers s topic) :
    c ∈ s.consumers ∧ c.topic = topic ∧ c.is_ready = true := by
  have h1 : c ∈ (s.consumers.filter
      (fun c => c.topic == topic && c.is_ready)).insertionSort
        (fun a b => charListLe a.endpoint_url.data b.endpoint_url.data = true) :=
    List.mem_of_mem_take h
  have h2 := (List.mem_insertionSort
    (fun a b : Consumer =>
      charListLe a.endpoint_url.data b.endpoint_url.data = true)).mp h1
  have h3 := List.mem_filter.mp h2
  have h4 := h3.2
  simp only [Bool.and_eq_true, beq_iff_eq] at h4
  exact ⟨h3.1, h4.1, h4.2⟩

/-- Claim C1, counterexample: two queued `chunk` tasks with equal
`scheduled_start_timestamp` (5) where task id 0 has the smaller
`creation_timestamp`; the task query orders only by
`scheduled_start_timestamp`, so the answer `[taskTieB]` (the younger
task first) is admissible, and that broker pass leases task id 1 while
task id 0 — equal schedule, smaller creation — stays queued.  The
claimed creation-timestamp tie-break is therefore not guaranteed. -/
theorem C1_tie_break_not_guaranteed :
    taskTieA.scheduled_start_timestamp = taskTieB.scheduled_start_timestamp ∧
    taskTieA.creation_timestamp < taskTieB.creation_timestamp ∧
    TaskQueryResult storeC1 "chunk" 10
      (readyConsumers storeC1 "chunk").length [taskTieB] ∧
    (∃ t' ∈ (assignTopic storeC1 "chunk" 10 [taskTieB]).1.tasks,
      t'.id = taskTieB.id ∧ t'.status_code = 1) ∧
    (∃ t' ∈ (assignTopic storeC1 "chunk" 10 [taskTieB]).1.tasks,
      t'.id = taskTieA.id ∧ t'.status_code = 0) :=
  ⟨by decide, by decide,
    ⟨[taskTieB, taskTieA], by decide, by decide, by decide⟩,
    by decide, by decide⟩

/-- Claim C1, amended: within a topic, for every admissible answer of
the task batch query, the batch holds only eligible queued tasks of
the topic in ascending `scheduled_start_timestamp` order, no eligible
task scheduled strictly earlier than a batched task is left out of the
batch, the broker leases exactly the batch in order (each lease
committing), and every unpaired task row is preserved.  Among tasks
with equal `scheduled_start_timestamp` the order is whatever the
database returns — the query has no `creation_timestamp` tie-break
(see the counterexample) — and a task with
`scheduled_start_timestamp > now` is never in the batch. -/
theorem C1_fifo_order :
    ∀ (s : Store) (topic : String) (now : Nat) (res : List Task),
      (s.tasks.map Task.id).Nodup →
      (s.consumers.map Consumer.endpoint_url).Nodup →
      TaskQueryResult s topic now (readyConsumers s topic).length res →
      C1Post s topic now res := by
  rintro s topic now res hnt hnc ⟨full, hfp, hfs, hres⟩
  have hsubE : ∀ t ∈ res, t ∈ eligibleTasks s topic now := by
    intro t ht
    rw [hres] at ht
    exact hfp.mem_iff.mp (List.mem_of_mem_take ht)
  refine ⟨?_, ?_, ?_, ?_, ?_⟩
  · intro t ht
    exact (mem_eligibleTasks_props (hsubE t ht)).2
  · rw [hres]
    exact hfs.sublist (List.take_sublist _ _)
  · intro t ht u hu hnotin
    have hufull : u ∈ full := hfp.mem_iff.mpr hu
    have hudrop : u ∈ full.drop (readyConsumers s topic).length := by
      rcases List.mem_append.mp
          ((List.take_append_drop (readyConsumers s topic).length full) ▸ hufull) with h | h
      · exact absurd (hres ▸ h) hnotin
      · exact h
    have httake : t ∈ full.take (readyConsumers s topic).length := hres ▸ ht
    have hfs2 : List.Pairwise
        (fun a b => a.scheduled_start_timestamp ≤ b.scheduled_start_timestamp)
        (full.take (readyConsumers s topic).length ++
          full.drop (readyConsumers s topic).length) := by
      rw [List.take_append_drop]
      exact hfs
    exact hfs2.rel_of_mem_append httake hudrop
  · have hpf : ((assignTopicPairs s topic res).map Prod.fst).Nodup :=
      (readyConsumers_endpoints_nodup hnc).sublist (zip_map_fst_sublist _ _)
    have hps : ((assignTopicPairs s topic res).map Prod.snd).Nodup :=
      (res_ids_nodup hnt hfp hres).sublist (zip_map_snd_sublist _ _)
    have hcond : ∀ p ∈ assignTopicPairs s topic res,
        (∃ c ∈ s.consumers, c.endpoint_url = p.1 ∧ c.is_ready = true) ∧
        (∃ t ∈ s.tasks, t.id = p.2 ∧ t.status_code = 0) := by
      rintro ⟨pe, pt⟩ hp
      obtain ⟨hpe, hpt⟩ := List.of_mem_zip hp
      obtain ⟨cc, hcc, rfl⟩ := List.mem_map.mp hpe
      obtain ⟨hcmem, _, hcready⟩ := mem_readyConsumers_props hcc
      obtain ⟨tt, htt, rfl⟩ := List.mem_map.mp hpt
      obtain ⟨htmem, _, ht0, _⟩ := mem_eligibleTasks_props (hsubE tt htt)
      exact ⟨⟨cc, hcmem, rfl, hcready⟩, ⟨tt, htmem, rfl, ht0⟩⟩
    obtain ⟨h1, h2, _, _⟩ :=
      assignPairs_spec now (assignTopicPairs s topic res) s hnt hnc hpf hps hcond
    exact ⟨h1, h2⟩
  · have hpf : ((assignTopicPairs s topic res).map Prod.fst).Nodup :=
      (readyConsumers_endpoints_nodup hnc).sublist (zip_map_fst_sublist _ _)
    have hps : ((assignTopicPairs s topic res).map Prod.snd).Nodup :=
      (res_ids_nodup hnt hfp hres).sublist (zip_map_snd_sublist _ _)
    have hcond : ∀ p ∈ assignTopicPairs s topic res,
        (∃ c ∈ s.consumers, c.endpoint_url = p.1 ∧ c.is_ready = true) ∧
        (∃ t ∈ s.tasks, t.id = p.2 ∧ t.status_code = 0) := by
      rintro ⟨pe, pt⟩ hp
      obtain ⟨hpe, hpt⟩ := List.of_mem_zip hp
      obtain ⟨cc, hcc, rfl⟩ := List.mem_map.mp hpe
      obtain ⟨hcmem, _, hcready⟩ := mem_readyConsumers_props hcc
      obtain ⟨tt, htt, rfl⟩ := List.mem_map.mp hpt
      obtain ⟨htmem, _, ht0, _⟩ := mem_eligibleTasks_props (hsubE tt htt)
      exact ⟨⟨cc, hcmem, rfl, hcready⟩, ⟨tt, htmem, rfl, ht0⟩⟩
    obtain ⟨_, _, h3, _⟩ :=
      assignPairs_spec now (assignTopicPairs s topic res) s hnt hnc hpf hps hcond
    exact h3

/-- Claim C1, witness for the amended theorem: the admissible answer
`[taskTieA]` (the older and first-scheduled task) of the same
two-task store. -/
theorem C1_fifo_order_witness :
    (storeC1.tasks.map Task.id).Nodup ∧
    (storeC1.consumers.map Consumer.endpoint_url).Nodup ∧
    TaskQueryResult storeC1 "chunk" 10
      (readyConsumers storeC1 "chunk").length [taskTieA] ∧
    C1Post storeC1 "chunk" 10 [taskTieA] :=
  ⟨by decide, by decide,
    ⟨[taskTieA, taskTieB], by decide, by decide, by decide⟩,
    C1_fifo_order storeC1 "chunk" 10 [taskTieA] (by decide) (by decide)
      ⟨[taskTieA, taskTieB], by decide, by decide, by decide⟩⟩

end QuickResolve
